import Mathlib

/-
Verification of the cooperative multi-agent path-finding planners
(greedy, LRA*, WHCA*, operator decomposition) against their source.

The data model and the operations are shallowly embedded from the C++
sources (libsolver/world.cpp, libsolver/solvers.cpp,
libsolver/operator_decomposition.cpp).  Machine integers that can only
hold small values (ticks, counters, coordinates) are modelled as Nat or
Int; std::unordered_map tables are modelled as association lists with
overwrite-on-insert semantics; the double agitation accumulator only
ever holds sums of small integers and is modelled as Rat.
-/

namespace MAPF

/-- Tile kinds, from the tile enum in world.hpp. -/
inductive Tile
  | free
  | wall
  | obstacle
  | agent
deriving DecidableEq, Repr

/-- Cardinal directions, from the direction enum in world.hpp. -/
inductive Direction
  | north
  | east
  | south
  | west
deriving DecidableEq, Repr

/-- Grid position with integer coordinates, from struct position. -/
structure Pos where
  x : Int
  y : Int
deriving DecidableEq, Repr

/-- List of the four directions in declaration order (all_directions). -/
def allDirections : List Direction :=
  [Direction.north, Direction.east, Direction.south, Direction.west]

/-- Unit step in a direction, from translate in world.cpp. -/
def translate (p : Pos) (d : Direction) : Pos :=
  match d with
  | Direction.north => ⟨p.x, p.y - 1⟩
  | Direction.east  => ⟨p.x + 1, p.y⟩
  | Direction.south => ⟨p.x, p.y + 1⟩
  | Direction.west  => ⟨p.x - 1, p.y⟩

/-- Modelled from the spec: inverse(d) is the opposite direction.  The
definition of inverse is declared in world.hpp but its translation unit
is not part of the sources. -/
def inverse (d : Direction) : Direction :=
  match d with
  | Direction.north => Direction.south
  | Direction.east  => Direction.west
  | Direction.south => Direction.north
  | Direction.west  => Direction.east

/-- Modelled from the spec: Manhattan distance between two cells.  The
definition of distance is declared in world.hpp but its translation
unit is not part of the sources. -/
def manhattan (p q : Pos) : Nat :=
  (p.x - q.x).natAbs + (p.y - q.y).natAbs

/-- Modelled from the spec: two cells are neighbours when their
Manhattan distance is 1.  Declared in world.hpp; its translation unit
is not part of the sources. -/
def neighbours (p q : Pos) : Bool :=
  manhattan p q == 1

/-- Modelled from the spec: direction_to(from, to) is the direction of
the unit step from a cell to an adjacent cell.  Declared in the action
header, which is not part of the sources. -/
def directionTo (a b : Pos) : Direction :=
  if b.x > a.x then Direction.east
  else if b.x < a.x then Direction.west
  else if b.y > a.y then Direction.south
  else Direction.north

/-- Rectangular grid of tiles, from class map in world.hpp.  The tile
vector indexed by y * width + x is abstracted as a coordinate-indexed
function, which in-bounds accesses cannot distinguish from the array. -/
structure GridMap where
  width : Int
  height : Int
  tiles : Int → Int → Tile

/-- Map lookup, from map::get. -/
def GridMap.get (m : GridMap) (p : Pos) : Tile :=
  m.tiles p.x p.y

/-- Bounds check, from in_bounds in world.cpp. -/
def inBounds (p : Pos) (m : GridMap) : Bool :=
  decide (0 ≤ p.x) && decide (0 ≤ p.y) &&
  decide (p.x < m.width) && decide (p.y < m.height)

/-- Agent record: goal position and identifier, from class agent. -/
structure Agent where
  target : Pos
  id : Nat
deriving DecidableEq, Repr

/-- Association-list lookup with the semantics of unordered_map find:
the tables in the source never hold two entries with one key. -/
def alookup {κ α : Type} [DecidableEq κ] : List (κ × α) → κ → Option α
  | [], _ => none
  | e :: r, k => if e.1 = k then some e.2 else alookup r k

/-- Association-list overwrite with the semantics of unordered_map
indexed assignment. -/
def aupdate {κ α : Type} [DecidableEq κ] (l : List (κ × α)) (k : κ) (v : α) :
    List (κ × α) :=
  (k, v) :: l.filter (fun e => decide (e.1 ≠ k))

/-- Association-list erase with the semantics of unordered_map erase
by key. -/
def aerase {κ α : Type} [DecidableEq κ] (l : List (κ × α)) (k : κ) :
    List (κ × α) :=
  l.filter (fun e => decide (e.1 ≠ k))

/-- World state, from class world in world.hpp: shared map, agents and
obstacles keyed by position, and the tick counter.  Obstacle payloads
(motion distributions) play no role in the verified claims and are
dropped; an obstacle is represented by its occupied cell. -/
structure World where
  map : GridMap
  agents : List (Pos × Agent)
  obstacles : List Pos
  tick : Nat

/-- Effective tile, from world::get: agent over obstacle over map. -/
def World.get (w : World) (p : Pos) : Tile :=
  if (alookup w.agents p).isSome then Tile.agent
  else if p ∈ w.obstacles then Tile.obstacle
  else w.map.get p

/-- Agent lookup, from world::get_agent. -/
def World.getAgent (w : World) (p : Pos) : Option Agent :=
  alookup w.agents p

/- ----------------------------------------------------------------
WHCA* reservation tables (solvers.cpp, cooperative_a_star).
---------------------------------------------------------------- -/

/-- Space-time coordinate, from struct position_time in world.hpp. -/
structure PosTime where
  x : Int
  y : Int
  time : Nat
deriving DecidableEq, Repr

/-- Space-time coordinate of a position at a tick, from the
position_time constructor taking a position. -/
def PosTime.ofPos (p : Pos) (t : Nat) : PosTime :=
  ⟨p.x, p.y, t⟩

/-- Reservation record of WHCA*, from
cooperative_a_star::reservation_table_record: owning agent and the
optional cell the owner vacates when arriving. -/
structure WhcaResRecord where
  agent : Nat
  origin : Option Pos
deriving DecidableEq, Repr

/-- Space-time reservation table of WHCA*, from
cooperative_a_star::reservation_table_type. -/
abbrev WhcaResTable := List (PosTime × WhcaResRecord)

/-- Head-on swap test of the WHCA* passability predicate: the vacated
cell is reserved at the same tick with a from field equal to the
destination (solvers.cpp lines 540 to 546). -/
def vacatedSwap (res : WhcaResTable) (fromPos wherePos : Pos) (t : Nat) :
    Bool :=
  match alookup res (PosTime.ofPos fromPos t) with
  | some r => decide (r.origin = some wherePos)
  | none => false

/-- Reservation passability predicate of WHCA*, from
cooperative_a_star::passable_if_not_reserved::operator() (solvers.cpp
lines 533 to 549).  The functor captures the table, the searching
agent and the agent's current position; the agent capture is never
read by the body. -/
def passableIfNotReserved (res : WhcaResTable) (_ag : Agent)
    (startPos : Pos) (wherePos fromPos : Pos) (w : World)
    (distance : Nat) : Bool :=
  if (alookup res (PosTime.ofPos wherePos (w.tick + distance))).isSome then
    false
  else if vacatedSwap res fromPos wherePos (w.tick + distance) then
    false
  else
    decide (w.get wherePos = Tile.free) || ! neighbours wherePos startPos

/-- Permanent reservation record as claim C1 describes one; the WHCA*
planner in the source has no such table, so this structure exists only
to state the claimed predicate. -/
structure WhcaPermRecord where
  agent : Nat
  from_time : Nat
deriving DecidableEq, Repr

/-- Stated from the words of claim C1, for comparison with the source
predicate: passable iff the destination is not reserved by another
owner, the vacated cell is not reserved with a from field equal to the
destination, the destination is not permanently reserved by another
owner with from_time at most t, and the base rule holds. -/
def passableClaimedC1 (res : WhcaResTable)
    (perm : List (Pos × WhcaPermRecord)) (owner : Nat) (startPos : Pos)
    (wherePos fromPos : Pos) (w : World) (distance : Nat) : Bool :=
  (match alookup res (PosTime.ofPos wherePos (w.tick + distance)) with
   | some r => decide (r.agent = owner)
   | none => true) &&
  ! vacatedSwap res fromPos wherePos (w.tick + distance) &&
  (match alookup perm wherePos with
   | some pr =>
       decide (pr.agent = owner) || decide (w.tick + distance < pr.from_time)
   | none => true) &&
  (decide (w.get wherePos = Tile.free) || ! neighbours wherePos startPos)

/-- Statement of the amended claim C1: the source predicate passes a
step from q to p at distance d exactly when the destination is not
reserved at tick w.tick + d by anyone (the owner of the reservation is
ignored), the vacated cell q is not reserved at that tick with a from
field equal to p, and the base rule holds; no permanent table is
consulted because WHCA* keeps none. -/
def WhcaPassableProp (res : WhcaResTable) (startPos wherePos fromPos : Pos)
    (w : World) (distance : Nat) : Prop :=
  passableIfNotReserved res ⟨⟨0, 0⟩, 0⟩ startPos wherePos fromPos w
      distance = true ↔
    (alookup res (PosTime.ofPos wherePos (w.tick + distance)) = none ∧
     (∀ r : WhcaResRecord,
        alookup res (PosTime.ofPos fromPos (w.tick + distance)) = some r →
          r.origin ≠ some wherePos) ∧
     (w.get wherePos = Tile.free ∨ neighbours wherePos startPos = false))

/-- Reservation of a path, from cooperative_a_star::reserve (solvers.cpp
lines 551 to 565): iteration d of the loop writes the cell at index
length - d - 1 of the reversed path at tick start + d, with the from
field equal to the preceding path cell for d positive and absent for
d zero.  The recursion counter n is the number of loop iterations
already unrolled. -/
def reserveAux (aid : Nat) (pth : List Pos) (start : Nat) :
    Nat → WhcaResTable → WhcaResTable
  | 0, t => t
  | d + 1, t =>
      aupdate (reserveAux aid pth start d t)
        (PosTime.ofPos (pth.getD (pth.length - d - 1) ⟨0, 0⟩) (start + d))
        ⟨aid, if d > 0 then some (pth.getD (pth.length - d) ⟨0, 0⟩) else none⟩

/-- Reservation of a whole path, from cooperative_a_star::reserve; the
caller in find_path passes start = w.tick() (solvers.cpp line 649). -/
def whcaReserve (aid : Nat) (pth : List Pos) (start : Nat)
    (t : WhcaResTable) : WhcaResTable :=
  reserveAux aid pth start pth.length t

/-- Removal of one agent's reservations, from
cooperative_a_star::unreserve (solvers.cpp lines 567 to 575). -/
def whcaUnreserve (aid : Nat) (t : WhcaResTable) : WhcaResTable :=
  t.filter (fun e => ! (e.2.agent == aid))

/-- Control flow of cooperative_a_star::find_path (solvers.cpp lines
605 to 652) around the reservation table: the agent's own entries are
dropped on entry; when the rejoin shortcut fires (positive rejoin
limit, a prior path at hand and a successful rejoin search), the
spliced path is returned at lines 616 to 619 before any reservation;
otherwise the primary search result is reserved starting at the
current tick (line 649) and returned.  The rejoin and primary searches
enter as oracle parameters (the booleans stand for rejoin_limit_ > 0
and for the presence of old_path). -/
def whcaFindPath (rejoinEnabled hasOld : Bool)
    (rejoinResult : Option (List Pos)) (searchResult : List Pos)
    (aid tick : Nat) (tbl : WhcaResTable) : List Pos × WhcaResTable :=
  match (if rejoinEnabled && hasOld then rejoinResult else none) with
  | some p => (p, whcaUnreserve aid tbl)
  | none =>
      (searchResult,
       whcaReserve aid searchResult tick (whcaUnreserve aid tbl))

/-- Statement of the amended claim C2: on the primary-search exit of
find_path (the rejoin shortcut did not fire) the returned path is the
search result and the table holds, for every offset d below the path
length, an entry for the reversed-path cell of index length - d - 1 at
tick w.tick + d owned by the agent, with the preceding path cell as
the from field for d positive and no from field for d zero; on the
successful-rejoin exit the spliced path is returned with the table
merely stripped of the agent's entries, so no entry owned by the agent
exists at all. -/
def WhcaFindPathProp (rejoinEnabled hasOld : Bool)
    (rejoinResult : Option (List Pos)) (searchResult : List Pos)
    (aid tick : Nat) (tbl : WhcaResTable) : Prop :=
  ((if rejoinEnabled && hasOld then rejoinResult else none) = none →
    (whcaFindPath rejoinEnabled hasOld rejoinResult searchResult aid tick
        tbl).1 = searchResult ∧
    (∀ d < searchResult.length,
      alookup (whcaFindPath rejoinEnabled hasOld rejoinResult searchResult
            aid tick tbl).2
          (PosTime.ofPos
            (searchResult.getD (searchResult.length - d - 1) ⟨0, 0⟩)
            (tick + d)) =
        some ⟨aid,
          if d > 0 then
            some (searchResult.getD (searchResult.length - d) ⟨0, 0⟩)
          else none⟩)) ∧
  (∀ p, (if rejoinEnabled && hasOld then rejoinResult else none) = some p →
    (whcaFindPath rejoinEnabled hasOld rejoinResult searchResult aid tick
        tbl).1 = p ∧
    (whcaFindPath rejoinEnabled hasOld rejoinResult searchResult aid tick
        tbl).2 = whcaUnreserve aid tbl ∧
    (∀ e ∈ (whcaFindPath rejoinEnabled hasOld rejoinResult searchResult
        aid tick tbl).2, e.2.agent ≠ aid))

/- ----------------------------------------------------------------
OD reservation tables (operator_decomposition.cpp).
---------------------------------------------------------------- -/

/-- Reservation record of OD, from
operator_decomposition::reservation_table_record; the group iterator is
modelled as a group identifier. -/
structure OdResRecord where
  group : Nat
  origin : Option Pos
deriving DecidableEq, Repr

/-- Permanent reservation record of OD, from
operator_decomposition::permanent_reservation_record. -/
structure OdPermRecord where
  group : Nat
  from_time : Nat
deriving DecidableEq, Repr

/-- Removal of one group's space-time reservations, from the do_it
lambda of operator_decomposition::unreserve applied to
reservation_table_ (operator_decomposition.cpp lines 657 to 669). -/
def odUnreserveRes (g : Nat) (t : List (PosTime × OdResRecord)) :
    List (PosTime × OdResRecord) :=
  t.filter (fun e => ! (e.2.group == g))

/-- Removal of one group's permanent reservations, from the do_it
lambda of operator_decomposition::unreserve applied to
permanent_reservation_table_. -/
def odUnreservePerm (g : Nat) (t : List (Pos × OdPermRecord)) :
    List (Pos × OdPermRecord) :=
  t.filter (fun e => ! (e.2.group == g))

/-- Statement of claim C6 over one WHCA* table and the two OD tables:
after unreserving an owner no entry of that owner remains, and every
entry of any other owner survives unchanged. -/
def UnreserveProp (aid g : Nat) (t1 : WhcaResTable)
    (t2 : List (PosTime × OdResRecord)) (t3 : List (Pos × OdPermRecord)) :
    Prop :=
  (∀ e ∈ whcaUnreserve aid t1, e.2.agent ≠ aid) ∧
  (∀ e ∈ t1, e.2.agent ≠ aid → e ∈ whcaUnreserve aid t1) ∧
  (∀ e ∈ odUnreserveRes g t2, e.2.group ≠ g) ∧
  (∀ e ∈ t2, e.2.group ≠ g → e ∈ odUnreserveRes g t2) ∧
  (∀ e ∈ odUnreservePerm g t3, e.2.group ≠ g) ∧
  (∀ e ∈ t3, e.2.group ≠ g → e ∈ odUnreservePerm g t3)

/- ----------------------------------------------------------------
OD search states and successors (operator_decomposition.cpp).
---------------------------------------------------------------- -/

/-- Per-agent action of OD, from the agent_action enum. -/
inductive AgentAction
  | north
  | east
  | south
  | west
  | stay
  | unassigned
deriving DecidableEq, Repr

/-- Conversion of an assigned move action to a direction, from
agent_action_to_direction; the source asserts the action is neither
stay nor unassigned, for which the cast is out of range, so those two
cases carry an arbitrary value. -/
def agentActionToDirection : AgentAction → Direction
  | AgentAction.north => Direction.north
  | AgentAction.east => Direction.east
  | AgentAction.south => Direction.south
  | AgentAction.west => Direction.west
  | AgentAction.stay => Direction.north
  | AgentAction.unassigned => Direction.north

/-- Conversion of a direction to an action, from direction_to_action. -/
def directionToAction : Direction → AgentAction
  | Direction.north => AgentAction.north
  | Direction.east => AgentAction.east
  | Direction.south => AgentAction.south
  | Direction.west => AgentAction.west

/-- One agent's slot in an OD search state, from agent_state_record:
post-move position, agent identifier and pending action. -/
structure AgentStateRec where
  position : Pos
  id : Nat
  action : AgentAction
deriving DecidableEq, Repr

/-- OD search state, from agents_state: a fixed-order vector of agent
records and the index of the next undecided agent. -/
structure AgentsState where
  agents : List AgentStateRec
  next_agent : Nat
deriving DecidableEq, Repr

/-- OD search coordinate, from agents_state_time. -/
structure AgentsStateTime where
  state : AgentsState
  time : Nat
deriving DecidableEq, Repr

/-- Default record used to give list indexing a total type; every
verified statement indexes within bounds. -/
def defaultRec : AgentStateRec :=
  ⟨⟨0, 0⟩, 0, AgentAction.unassigned⟩

/-- Record of the agent the state assigns next. -/
def curAgent (s : AgentsState) : AgentStateRec :=
  s.agents.getD s.next_agent defaultRec

/-- Action reset applied to every record by make_full. -/
def makeFullRec (r : AgentStateRec) : AgentStateRec :=
  { r with action := AgentAction.unassigned }

/-- Agent vector after the next agent's record receives an action and
a destination, from the two assignments of the add lambda of
state_successors::get. -/
def assignRec (s : AgentsState) (act : AgentAction) (dest : Pos) :
    List AgentStateRec :=
  s.agents.set s.next_agent
    { curAgent s with action := act, position := dest }

/-- Construction of one successor state, from the add lambda of
state_successors::get (operator_decomposition.cpp lines 47 to 65): the
next agent's record receives the action and destination, next_agent
advances by one modulo the agent count, and a wrap to zero resets all
pending actions through make_full. -/
def mkSuccessor (s : AgentsState) (act : AgentAction) (dest : Pos) :
    AgentsState :=
  if (s.next_agent + 1) % (assignRec s act dest).length = 0 then
    ⟨(assignRec s act dest).map makeFullRec, 0⟩
  else
    ⟨assignRec s act dest,
     (s.next_agent + 1) % (assignRec s act dest).length⟩

/-- Conflict of a candidate destination with one already-assigned
agent, from the inner loop of state_successors::get (lines 77 to 99):
a stay agent blocks its own cell; a moving agent blocks its post-move
cell and the head-on swap through its vacated cell. -/
def recBlocks (iPos dest : Pos) (o : AgentStateRec) : Bool :=
  if o.action = AgentAction.stay then
    decide (dest = o.position)
  else
    decide (dest = o.position) ||
    (decide (dest =
        translate o.position (inverse (agentActionToDirection o.action))) &&
     decide (o.position = iPos))

/-- Scan of the agent vector for a blocking assigned agent; the scan
stops at the first unassigned record exactly as the source loop
breaks. -/
def moveBlocked (iPos dest : Pos) : List AgentStateRec → Bool
  | [] => false
  | o :: rest =>
      if o.action = AgentAction.unassigned then false
      else recBlocks iPos dest o || moveBlocked iPos dest rest

/-- Scan for an already-assigned other agent standing on the next
agent's cell, from the needs_vacate loop of state_successors::get
(lines 105 to 115). -/
def needsVacate (a : AgentStateRec) : List AgentStateRec → Bool
  | [] => false
  | o :: rest =>
      if o.action = AgentAction.unassigned then false
      else
        (decide (o.position = a.position) && decide (o.id ≠ a.id)) ||
        needsVacate a rest

/-- Successor generation of OD, from state_successors::get: one
successor per admissible cardinal move in direction order, then the
stay successor unless the agent must vacate its cell. -/
def stateSuccessors (w : World) (s : AgentsState) : List AgentsState :=
  (allDirections.filterMap fun d =>
    if inBounds (translate (curAgent s).position d) w.map = true ∧
        w.get (translate (curAgent s).position d) ≠ Tile.wall ∧
        moveBlocked (curAgent s).position
          (translate (curAgent s).position d) s.agents = false then
      some (mkSuccessor s (directionToAction d)
        (translate (curAgent s).position d))
    else none) ++
  (if needsVacate (curAgent s) s.agents then []
   else [mkSuccessor s AgentAction.stay (curAgent s).position])

/-- Pre-move cell of an assigned agent as claim C3 speaks of it: a
staying agent's pre-move cell is its own cell, a moving agent's is the
cell it came from. -/
def odPreMove (o : AgentStateRec) : Pos :=
  if o.action = AgentAction.stay then o.position
  else translate o.position (inverse (agentActionToDirection o.action))

/-- Conflict relation of claim C3 between a candidate destination and
one already-assigned agent: the destination equals the agent's
post-move position, or the step is a head-on swap. -/
def ClaimBlockProp (iPos dest : Pos) (o : AgentStateRec) : Prop :=
  dest = o.position ∨ (dest = odPreMove o ∧ o.position = iPos)

/-- Condition under which the stay successor is withheld, as claim C3
states it: some already-assigned other agent's post-move position
equals the next agent's position. -/
def OdVacateProp (s : AgentsState) : Prop :=
  ∃ j, j < s.next_agent ∧
    (s.agents.getD j defaultRec).position = (curAgent s).position ∧
    (s.agents.getD j defaultRec).id ≠ (curAgent s).id

/-- Statement of the amended claim C3 for a state: every successor is
either an admissible cardinal move of the next agent or its stay
successor; the stay successor is produced exactly when no
already-assigned other agent occupies the next agent's cell; and any
successor construction advances next_agent by one modulo the agent
count and keeps the other agents' positions and identifiers, keeping
their pending actions too unless the assignment completes the round,
in which case every pending action is reset to unassigned. -/
def OdSuccessorProp (w : World) (s : AgentsState) : Prop :=
  (∀ t ∈ stateSuccessors w s,
    (∃ d : Direction,
       inBounds (translate (curAgent s).position d) w.map = true ∧
       w.get (translate (curAgent s).position d) ≠ Tile.wall ∧
       (∀ j < s.next_agent,
         ¬ ClaimBlockProp (curAgent s).position
             (translate (curAgent s).position d)
             (s.agents.getD j defaultRec)) ∧
       t = mkSuccessor s (directionToAction d)
             (translate (curAgent s).position d)) ∨
    (t = mkSuccessor s AgentAction.stay (curAgent s).position ∧
     ¬ OdVacateProp s)) ∧
  (mkSuccessor s AgentAction.stay (curAgent s).position ∈
      stateSuccessors w s ↔ ¬ OdVacateProp s) ∧
  (∀ act dest,
    (mkSuccessor s act dest).next_agent =
      (s.next_agent + 1) % s.agents.length ∧
    (∀ j < s.agents.length, j ≠ s.next_agent →
      ((mkSuccessor s act dest).agents.getD j defaultRec).position =
        (s.agents.getD j defaultRec).position ∧
      ((mkSuccessor s act dest).agents.getD j defaultRec).id =
        (s.agents.getD j defaultRec).id ∧
      (s.next_agent + 1 < s.agents.length →
        ((mkSuccessor s act dest).agents.getD j defaultRec).action =
          (s.agents.getD j defaultRec).action)) ∧
    (s.next_agent + 1 = s.agents.length →
      ∀ j < s.agents.length,
        ((mkSuccessor s act dest).agents.getD j defaultRec).action =
          AgentAction.unassigned))

/- ----------------------------------------------------------------
OD close policy and group replanning (operator_decomposition.cpp).
---------------------------------------------------------------- -/

/-- Close policy of OD, from close_full::get (operator_decomposition.cpp
lines 447 to 452): only full states may be closed. -/
def closeFull (st : AgentsStateTime) : Bool :=
  st.state.next_agent == 0

/-- Initial joint state of a group, from the loop of
operator_decomposition::replan_group that fills current_state with one
record per member holding its current position, its identifier and the
default unassigned action. -/
def mkCurrentState (members : List (Pos × Nat)) : AgentsState :=
  ⟨members.map (fun m => ⟨m.1, m.2, AgentAction.unassigned⟩), 0⟩

/-- Post-search plan assembly of operator_decomposition::replan_group
(operator_decomposition.cpp lines 533 to 572) as a function of the raw
search result: a cancelled search yields the empty plan; otherwise
partial states are stripped and an empty remainder is replaced by the
single stay-in-place state. -/
def replanGroupPlan (cancelled : Bool) (searchResult : List AgentsState)
    (current : AgentsState) : List AgentsState :=
  if cancelled then []
  else
    let r := searchResult.filter (fun st => st.next_agent == 0)
    if r.isEmpty then [current] else r

/-- Statement of claim C5: the close policy admits exactly the full
states, and every state of a plan returned by replan_group has
next_agent zero. -/
def OdClosePolicyProp (st : AgentsStateTime) (cancelled : Bool)
    (res : List AgentsState) (members : List (Pos × Nat)) : Prop :=
  (closeFull st = true ↔ st.state.next_agent = 0) ∧
  (∀ s ∈ replanGroupPlan cancelled res (mkCurrentState members),
     s.next_agent = 0)

/-- Statement of the amended claim C4: a search that is not cancelled
always produces a non-empty plan, and when it yields no full state the
plan is the single state in which every member rests at its starting
position; a cancelled search instead yields the empty plan. -/
def OdReplanFallbackProp (res : List AgentsState)
    (members : List (Pos × Nat)) : Prop :=
  replanGroupPlan false res (mkCurrentState members) ≠ [] ∧
  (res.filter (fun st => st.next_agent == 0) = [] →
    replanGroupPlan false res (mkCurrentState members) =
      [mkCurrentState members] ∧
    (∀ j < members.length,
      ((mkCurrentState members).agents.getD j defaultRec).position =
        (members.getD j (⟨0, 0⟩, 0)).1) ∧
    (mkCurrentState members).next_agent = 0)

/- ----------------------------------------------------------------
OD state equalities (operator_decomposition.cpp).
---------------------------------------------------------------- -/

/-- Full state equality, from the equality operators on
agent_state_record and agents_state (operator_decomposition.cpp lines
5 to 15): equal next_agent and componentwise equal records, which for
records with exactly these fields is structural equality. -/
def odFullStateEqual (s t : AgentsState) : Bool :=
  decide (s.next_agent = t.next_agent) && decide (s.agents = t.agents)

/-- Record comparison of the conflating equality, from
partial_record_equal: position and identifier only. -/
def conflatedRecordEqual (a b : AgentStateRec) : Bool :=
  decide (a.position = b.position) && decide (a.id = b.id)

/-- Scan of the remaining records for an unassigned agent adjacent to
either pre-move cell, from the inner loop of partial_state_equal
(operator_decomposition.cpp lines 248 to 257). -/
def vicinityBlocks (lp rp : Pos) :
    List AgentStateRec → List AgentStateRec → Bool
  | a :: as1, b :: bs =>
      if a.action ≠ AgentAction.unassigned then vicinityBlocks lp rp as1 bs
      else
        (neighbours a.position lp || neighbours b.position rp) ||
        vicinityBlocks lp rp as1 bs
  | _, _ => false

/-- Componentwise walk of the conflating equality, from the main loop
of partial_state_equal: records must agree on position and identifier,
and records that agree on position but differ in action force the
vicinity check on the agents after them. -/
def conflatedRecsEqual : List AgentStateRec → List AgentStateRec → Bool
  | [], [] => true
  | a :: as1, b :: bs =>
      if ! conflatedRecordEqual a b then false
      else if decide (a.position = b.position) &&
              ! decide (a.action = b.action) then
        if vicinityBlocks
            (translate a.position
              (inverse (agentActionToDirection a.action)))
            (translate b.position
              (inverse (agentActionToDirection b.action))) as1 bs then
          false
        else conflatedRecsEqual as1 bs
      else conflatedRecsEqual as1 bs
  | _, _ => false

/-- Conflating state equality of the OD open set, from
partial_state_equal (operator_decomposition.cpp lines 217 to 263). -/
def conflatedStateEqual (s t : AgentsState) : Bool :=
  if s.agents.length ≠ t.agents.length then false
  else if s.next_agent ≠ t.next_agent then false
  else conflatedRecsEqual s.agents t.agents

/- ----------------------------------------------------------------
separate_paths_solver (solvers.cpp, lines 150 to 258).
---------------------------------------------------------------- -/

/-- Single-agent action, from struct action: source cell and
direction. -/
structure MoveAction where
  pos : Pos
  dir : Direction
deriving DecidableEq, Repr

/-- Modelled from the spec: valid(a, w) requires the destination in
bounds, non-wall and non-obstacle.  The definition lives in the action
translation unit, which is not part of the sources; the claims settled
against this model only exercise wall or obstacle destinations. -/
def validAction (a : MoveAction) (w : World) : Bool :=
  inBounds (translate a.pos a.dir) w.map &&
  decide (w.get (translate a.pos a.dir) ≠ Tile.wall) &&
  decide (w.get (translate a.pos a.dir) ≠ Tile.obstacle)

/-- Modelled from the spec: applying an action moves the agent from its
cell to the destination cell.  Defined in the action translation unit,
which is not part of the sources. -/
def applyAction (a : MoveAction) (w : World) : World :=
  match alookup w.agents a.pos with
  | some ag =>
      { w with agents := (translate a.pos a.dir, ag) :: aerase w.agents a.pos }
  | none => w

/-- Mutable bookkeeping of separate_paths_solver: the stored paths
(goal first, current cell last, keyed by agent identifier) and the
counters named Path not found, Recalculations and Path invalid. -/
structure SepState where
  paths : List (Nat × List Pos)
  times_without_path : Nat
  recalculations : Nat
  path_invalid : Nat
deriving DecidableEq, Repr

/-- Oracle standing for the solver-specific find_path virtual (LRA*
and WHCA* override it); the random engine plays no part in the
bookkeeping verified here, so it is not a parameter. -/
def FindPathFn : Type :=
  Pos → World → Option (List Pos) → List Pos

/-- Tail of separate_paths_solver::next_step after the possible
recalculation: fail when fewer than two cells remain, else pop the
stored path's back (the agent's current cell) and return the new
back. -/
def nextStepPop (p : SepState × List Pos) (aid : Nat) :
    Option Pos × SepState :=
  if p.2.length < 2 then (none, p.1)
  else (p.2.dropLast.getLast?,
        { p.1 with paths := aupdate p.1.paths aid p.2.dropLast })

/-- Step retrieval of separate_paths_solver::next_step (solvers.cpp
lines 242 to 258): a stored path with fewer than two cells triggers
recalculate, which increments the recalculation counter and asks the
virtual find_path for a new path. -/
def nextStep (fp : FindPathFn) (from0 : Pos) (w : World)
    (old : Option (List Pos)) (aid : Nat) (st : SepState) :
    Option Pos × SepState :=
  nextStepPop
    (if ((alookup st.paths aid).getD []).length < 2 then
       ({ st with recalculations := st.recalculations + 1,
                  paths := aupdate st.paths aid (fp from0 w old) },
        fp from0 w old)
     else (st, (alookup st.paths aid).getD []))
    aid

/-- Per-agent body of separate_paths_solver::get_action (solvers.cpp
lines 169 to 203): ask next_step for a step; a missing step away from
the goal bumps the Path not found counter; an invalid step bumps the
Path invalid counter, drops the stored path and retries next_step with
the old path; a surviving step is emitted and applied to the working
world. -/
def processAgent (fp : FindPathFn) (pos target : Pos) (aid : Nat)
    (w : World) (st : SepState) (acts : List MoveAction) :
    SepState × List MoveAction × World :=
  match nextStep fp pos w none aid st with
  | (none, st1) =>
      if pos ≠ target then
        ({ st1 with times_without_path := st1.times_without_path + 1 },
         acts, w)
      else (st1, acts, w)
  | (some nxt, st1) =>
      if pos = nxt then (st1, acts, w)
      else
        match (if validAction ⟨pos, directionTo pos nxt⟩ w then
                 (some nxt, st1)
               else
                 nextStep fp pos w (some ((alookup st1.paths aid).getD []))
                   aid
                   { st1 with path_invalid := st1.path_invalid + 1,
                              paths := aerase st1.paths aid }) with
        | (none, st2) => (st2, acts, w)
        | (some n2, st2) =>
            if pos = n2 then (st2, acts, w)
            else (st2, acts ++ [⟨pos, directionTo pos n2⟩],
                  applyAction ⟨pos, directionTo pos n2⟩ w)

/-- Statement of the amended claim C8: when the initial next_step finds
no step for an agent away from its goal, the Path not found counter
grows by exactly one, no action is emitted for the agent and the
working world is untouched, so processing continues with the remaining
agents. -/
def SepNoPathProp (fp : FindPathFn) (pos target : Pos) (aid : Nat)
    (w : World) (st : SepState) (acts : List MoveAction) : Prop :=
  (processAgent fp pos target aid w st acts).1.times_without_path =
    st.times_without_path + 1 ∧
  (processAgent fp pos target aid w st acts).2.1 = acts ∧
  (processAgent fp pos target aid w st acts).2.2 = w

/- ----------------------------------------------------------------
Greedy solver (solvers.cpp, greedy::get_action).
---------------------------------------------------------------- -/

/-- Deliberate direction choice of the greedy solver, from the
non-random branch of greedy::get_action (solvers.cpp lines 83 to 90):
step along the axis of the larger absolute delta, the y axis on
ties. -/
def greedyDirection (pos goal : Pos) : Direction :=
  if |goal.x - pos.x| > |goal.y - pos.y| then
    if goal.x - pos.x > 0 then Direction.east else Direction.west
  else
    if goal.y - pos.y > 0 then Direction.south else Direction.north

/-- Statement of claim C10 at a position/goal pair: the deliberate
greedy move goes east or west by the sign of the x delta when the x
delta dominates strictly, and otherwise north or south by the sign of
the y delta, so ties go along the y axis. -/
def GreedyAxisProp (pos goal : Pos) : Prop :=
  (|goal.x - pos.x| > |goal.y - pos.y| →
    (greedyDirection pos goal = Direction.east ∨
     greedyDirection pos goal = Direction.west) ∧
    translate pos (greedyDirection pos goal) =
      ⟨pos.x + (goal.x - pos.x).sign, pos.y⟩) ∧
  (¬ |goal.x - pos.x| > |goal.y - pos.y| →
    (greedyDirection pos goal = Direction.north ∨
     greedyDirection pos goal = Direction.south) ∧
    translate pos (greedyDirection pos goal) =
      ⟨pos.x, pos.y + (goal.y - pos.y).sign⟩)

/- ----------------------------------------------------------------
LRA* agitation update (solvers.cpp, lra::find_path).
---------------------------------------------------------------- -/

/-- Per-agent bookkeeping of LRA*, from lra::agent_data. -/
structure LraAgentData where
  last_recalculation : Nat
  agitation : Rat
deriving DecidableEq, Repr

/-- Agitation and recalculation-tick update performed by lra::find_path
for an agent away from its goal (solvers.cpp lines 337 to 352): with
interval = tick - last_recalculation, an interval below 5 adds the
unsigned integer quotient 5 / interval to the agitation, any other
interval resets the agitation to zero, and the last recalculation tick
becomes the current tick. -/
def lraUpdateData (d : LraAgentData) (tick : Nat) : LraAgentData :=
  { last_recalculation := tick
    agitation :=
      if tick - d.last_recalculation < 5 then
        d.agitation + ((5 / (tick - d.last_recalculation) : Nat) : Rat)
      else 0 }

/-- Statement of claim C7 at one update: the agitation is reset to zero
for intervals of at least 5, grows by the unsigned quotient 5 / interval
for shorter intervals, and the last recalculation tick becomes the
current tick. -/
def LraAgitationProp (d : LraAgentData) (tick : Nat) : Prop :=
  ((5 ≤ tick - d.last_recalculation → (lraUpdateData d tick).agitation = 0) ∧
   (tick - d.last_recalculation < 5 →
     (lraUpdateData d tick).agitation =
       d.agitation + ((5 / (tick - d.last_recalculation) : Nat) : Rat))) ∧
  (lraUpdateData d tick).last_recalculation = tick

/-- Claim C7: LRA* agitation update for an agent that recomputes at a
tick strictly later than its last recalculation (the source asserts
interval > 0). -/
theorem lra_agitation_update (d : LraAgentData) (tick : Nat)
    (h : d.last_recalculation < tick) : LraAgitationProp d tick := by
  unfold LraAgitationProp lraUpdateData
  refine ⟨⟨fun h5 => ?_, fun h5 => ?_⟩, rfl⟩
  · simp only [if_neg (by omega : ¬ tick - d.last_recalculation < 5)]
  · simp only [if_pos h5]

/-- Witness for claim C7 at a concrete agent datum and tick. -/
theorem lra_agitation_update_witness :
    (⟨3, 2⟩ : LraAgentData).last_recalculation < 5 ∧
      LraAgitationProp ⟨3, 2⟩ 5 :=
  ⟨by decide, lra_agitation_update ⟨3, 2⟩ 5 (by decide)⟩

/-- Claim C10: the deliberate (non-random) greedy move follows the axis
of the strictly larger absolute delta, east or west by the sign of the
x delta, north or south by the sign of the y delta, with ties going
along the y axis; stated for any agent not at its goal, which is the
only case the source evaluates. -/
theorem greedy_deliberate_axis (pos goal : Pos) (h : pos ≠ goal) :
    GreedyAxisProp pos goal := by
  unfold GreedyAxisProp greedyDirection
  constructor
  · intro hgt
    have hdx : goal.x - pos.x ≠ 0 := by
      intro h0
      rw [h0, abs_zero] at hgt
      exact absurd hgt (not_lt.mpr (abs_nonneg _))
    by_cases hpos : goal.x - pos.x > 0
    · rw [if_pos hgt, if_pos hpos]
      refine ⟨Or.inl rfl, ?_⟩
      rw [Int.sign_eq_one_iff_pos.mpr hpos]
      simp [translate]
    · rw [if_pos hgt, if_neg hpos]
      have hneg : goal.x - pos.x < 0 := by omega
      refine ⟨Or.inr rfl, ?_⟩
      rw [Int.sign_eq_neg_one_iff_neg.mpr hneg]
      simp only [translate, Pos.mk.injEq]
      exact ⟨by omega, by trivial⟩
  · intro hle
    have hdy : goal.y - pos.y ≠ 0 := by
      intro h0
      rw [h0, abs_zero] at hle
      have hdx0 : goal.x - pos.x = 0 :=
        abs_eq_zero.mp (le_antisymm (not_lt.mp hle) (abs_nonneg _))
      refine h ?_
      have hx : pos.x = goal.x := by omega
      have hy : pos.y = goal.y := by omega
      cases pos
      cases goal
      simp_all
    by_cases hpos : goal.y - pos.y > 0
    · rw [if_neg hle, if_pos hpos]
      refine ⟨Or.inr rfl, ?_⟩
      rw [Int.sign_eq_one_iff_pos.mpr hpos]
      simp [translate]
    · rw [if_neg hle, if_neg hpos]
      have hneg : goal.y - pos.y < 0 := by omega
      refine ⟨Or.inl rfl, ?_⟩
      rw [Int.sign_eq_neg_one_iff_neg.mpr hneg]
      simp only [translate, Pos.mk.injEq]
      exact ⟨by trivial, by omega⟩

/-- Witness for claim C10 at a concrete position and goal. -/
theorem greedy_deliberate_axis_witness :
    (⟨0, 0⟩ : Pos) ≠ ⟨3, 1⟩ ∧ GreedyAxisProp ⟨0, 0⟩ ⟨3, 1⟩ :=
  ⟨by decide, greedy_deliberate_axis ⟨0, 0⟩ ⟨3, 1⟩ (by decide)⟩

/-- Lookup after an overwrite at the same key yields the new value. -/
theorem alookup_aupdate_self {κ α : Type} [DecidableEq κ]
    (l : List (κ × α)) (k : κ) (v : α) :
    alookup (aupdate l k v) k = some v := by
  simp [alookup, aupdate]

/-- Filtering out one key leaves lookups of any other key unchanged. -/
theorem alookup_filter_other {κ α : Type} [DecidableEq κ] (k k1 : κ)
    (h : k1 ≠ k) : ∀ l : List (κ × α),
    alookup (l.filter (fun e => decide (e.1 ≠ k))) k1 = alookup l k1 := by
  intro l
  induction l with
  | nil => rfl
  | cons e r ih =>
    by_cases he : e.1 = k
    · have hne : e.1 ≠ k1 := by
        rw [he]
        exact fun hh => h hh.symm
      rw [List.filter_cons_of_neg (by simp [he])]
      rw [ih]
      simp [alookup, hne]
    · rw [List.filter_cons_of_pos (by simp [he])]
      simp only [alookup]
      by_cases he1 : e.1 = k1
      · rw [if_pos he1, if_pos he1]
      · rw [if_neg he1, if_neg he1]
        exact ih

/-- Lookup after an overwrite at a different key is unchanged. -/
theorem alookup_aupdate_other {κ α : Type} [DecidableEq κ]
    (l : List (κ × α)) (k k1 : κ) (v : α) (h : k1 ≠ k) :
    alookup (aupdate l k v) k1 = alookup l k1 := by
  simp only [aupdate, alookup]
  rw [if_neg fun hh : k = k1 => h hh.symm]
  exact alookup_filter_other k k1 h l

/-- Space-time keys with different ticks differ. -/
theorem posTime_time_ne {p1 p2 : Pos} {t1 t2 : Nat} (h : t1 ≠ t2) :
    PosTime.ofPos p1 t1 ≠ PosTime.ofPos p2 t2 :=
  fun hh => h (congrArg PosTime.time hh)

/-- Claim C1 (amended): characterization of the WHCA* reservation
passability predicate; the destination check ignores the reservation
owner, and no permanent table takes part. -/
theorem whca_passable_characterization (res : WhcaResTable)
    (startPos wherePos fromPos : Pos) (w : World) (distance : Nat) :
    WhcaPassableProp res startPos wherePos fromPos w distance := by
  unfold WhcaPassableProp passableIfNotReserved vacatedSwap
  cases h1 : alookup res (PosTime.ofPos wherePos (w.tick + distance)) with
  | some r => simp [h1]
  | none =>
    cases h2 : alookup res (PosTime.ofPos fromPos (w.tick + distance)) with
    | some r2 =>
      by_cases h3 : r2.origin = some wherePos
      · simp [h1, h2, h3]
      · simp [h1, h2, h3]
    | none => simp [h1, h2]

/-- Witness for the amended claim C1 at concrete inputs. -/
theorem whca_passable_characterization_witness :
    WhcaPassableProp [] ⟨1, 0⟩ ⟨0, 0⟩ ⟨1, 0⟩
      ⟨⟨4, 4, fun _ _ => Tile.free⟩, [], [], 5⟩ 0 :=
  whca_passable_characterization [] ⟨1, 0⟩ ⟨0, 0⟩ ⟨1, 0⟩
    ⟨⟨4, 4, fun _ _ => Tile.free⟩, [], [], 5⟩ 0

/-- Counterexample to claim C1 as stated: a free destination cell whose
only reservation at the step tick belongs to the searching agent
itself.  The claimed predicate (not reserved by another owner, no swap,
no permanent conflict, base rule) accepts the step, but the source
predicate rejects it because it never compares the reservation owner
against the searching agent. -/
theorem whca_passable_owner_cex :
    passableIfNotReserved [(⟨0, 0, 5⟩, ⟨7, none⟩)] ⟨⟨9, 9⟩, 7⟩ ⟨1, 0⟩
        ⟨0, 0⟩ ⟨1, 0⟩ ⟨⟨4, 4, fun _ _ => Tile.free⟩, [], [], 5⟩ 0 = false ∧
      passableClaimedC1 [(⟨0, 0, 5⟩, ⟨7, none⟩)] [] 7 ⟨1, 0⟩ ⟨0, 0⟩ ⟨1, 0⟩
        ⟨⟨4, 4, fun _ _ => Tile.free⟩, [], [], 5⟩ 0 = true := by
  decide

/-- Lookup in the table built by the reservation loop: iteration d
wrote the reversed-path cell of index length - d - 1 at tick
start + d. -/
theorem reserveAux_lookup (aid : Nat) (pth : List Pos) (start : Nat)
    (t : WhcaResTable) : ∀ n d, d < n →
    alookup (reserveAux aid pth start n t)
        (PosTime.ofPos (pth.getD (pth.length - d - 1) ⟨0, 0⟩) (start + d)) =
      some ⟨aid, if d > 0 then some (pth.getD (pth.length - d) ⟨0, 0⟩)
                 else none⟩ := by
  intro n
  induction n with
  | zero => exact fun d hd => absurd hd (Nat.not_lt_zero d)
  | succ m ih =>
    intro d hd
    simp only [reserveAux]
    by_cases hdm : d = m
    · subst hdm
      exact alookup_aupdate_self _ _ _
    · rw [alookup_aupdate_other _ _ _ _
        (posTime_time_ne (by omega : start + d ≠ start + m))]
      exact ih d (by omega)

/-- Claim C2 (amended): characterization of the reservations find_path
leaves behind.  On the primary-search exit the entries start at the
current tick, not one past it, with the preceding cell as the from
field for positive offsets; on the successful-rejoin exit the spliced
path is returned before any reserve call, so the table holds no entry
owned by the agent; no permanent reservation exists in WHCA*. -/
theorem whca_find_path_reserves (rejoinEnabled hasOld : Bool)
    (rejoinResult : Option (List Pos)) (searchResult : List Pos)
    (aid tick : Nat) (tbl : WhcaResTable) :
    WhcaFindPathProp rejoinEnabled hasOld rejoinResult searchResult aid
      tick tbl := by
  unfold WhcaFindPathProp whcaFindPath
  constructor
  · intro hnone
    rw [hnone]
    exact ⟨rfl, fun d hd =>
      reserveAux_lookup aid searchResult tick (whcaUnreserve aid tbl)
        searchResult.length d hd⟩
  · intro p hp
    rw [hp]
    refine ⟨rfl, rfl, fun e he => ?_⟩
    have he2 : e ∈ tbl.filter (fun e => ! (e.2.agent == aid)) := he
    have h2 := (List.mem_filter.mp he2).2
    simpa using h2

/-- Witness for the amended claim C2: the primary exit with a concrete
three-cell path over a table holding another agent's entry, and the
rejoin exit with a concrete spliced path over a table holding entries
of the agent and of another agent. -/
theorem whca_find_path_reserves_witness :
    WhcaFindPathProp false false none [⟨2, 0⟩, ⟨1, 0⟩, ⟨0, 0⟩] 3 4
        [(⟨9, 9, 1⟩, ⟨5, none⟩)] ∧
      WhcaFindPathProp true true (some [⟨1, 0⟩, ⟨1, 1⟩]) [] 3 4
        [(⟨9, 9, 1⟩, ⟨5, none⟩), (⟨2, 2, 6⟩, ⟨3, none⟩)] :=
  ⟨whca_find_path_reserves false false none [⟨2, 0⟩, ⟨1, 0⟩, ⟨0, 0⟩] 3 4
      [(⟨9, 9, 1⟩, ⟨5, none⟩)],
   whca_find_path_reserves true true (some [⟨1, 0⟩, ⟨1, 1⟩]) [] 3 4
      [(⟨9, 9, 1⟩, ⟨5, none⟩), (⟨2, 2, 6⟩, ⟨3, none⟩)]⟩

/-- Counterexample to claim C2 as stated: find_path on its primary exit
(rejoin disabled) returning the single-cell path P = [(2,3)] at current
tick 5 leaves no entry at tick 5 + 1 + 0 = 6 where the claim places
one; the entry sits at tick 5. -/
theorem whca_reserve_shift_cex :
    alookup (whcaFindPath false false none [⟨2, 3⟩] 7 5 []).2
        (PosTime.ofPos ⟨2, 3⟩ 6) = none ∧
      alookup (whcaFindPath false false none [⟨2, 3⟩] 7 5 []).2
        (PosTime.ofPos ⟨2, 3⟩ 5) = some ⟨7, none⟩ := by
  decide

/-- Claim C6: unreserving an owner removes exactly that owner's entries
from the WHCA* space-time table and from both OD tables, leaving every
other owner's entries intact. -/
theorem unreserve_owner_closure (aid g : Nat) (t1 : WhcaResTable)
    (t2 : List (PosTime × OdResRecord)) (t3 : List (Pos × OdPermRecord)) :
    UnreserveProp aid g t1 t2 t3 := by
  unfold UnreserveProp whcaUnreserve odUnreserveRes odUnreservePerm
  refine ⟨fun e he => ?_, fun e he hne => ?_, fun e he => ?_,
          fun e he hne => ?_, fun e he => ?_, fun e he hne => ?_⟩
  · have h2 := (List.mem_filter.mp he).2
    simpa using h2
  · exact List.mem_filter.mpr ⟨he, by simpa using hne⟩
  · have h2 := (List.mem_filter.mp he).2
    simpa using h2
  · exact List.mem_filter.mpr ⟨he, by simpa using hne⟩
  · have h2 := (List.mem_filter.mp he).2
    simpa using h2
  · exact List.mem_filter.mpr ⟨he, by simpa using hne⟩

/-- Lookup of an index below the map length commutes with mapping. -/
theorem getD_map {α β : Type} (f : α → β) (d1 : β) (d2 : α) :
    ∀ (l : List α) (j : Nat), j < l.length →
      (l.map f).getD j d1 = f (l.getD j d2) := by
  intro l
  induction l with
  | nil =>
    intro j hj
    simp at hj
  | cons a r ih =>
    intro j hj
    cases j with
    | zero => simp [List.getD_cons_zero]
    | succ j2 =>
      simp only [List.map_cons, List.getD_cons_succ]
      exact ih j2 (by simpa using hj)

/-- Reduction of the replan_group plan assembly when the search was
not cancelled. -/
theorem replanGroupPlan_false (res : List AgentsState)
    (current : AgentsState) :
    replanGroupPlan false res current =
      if (res.filter (fun st => st.next_agent == 0)).isEmpty then [current]
      else res.filter (fun st => st.next_agent == 0) := by
  rfl

/-- Claim C5: the OD close policy admits exactly the full states, and
every state of a plan assembled by replan_group is full. -/
theorem od_close_policy (st : AgentsStateTime) (cancelled : Bool)
    (res : List AgentsState) (members : List (Pos × Nat)) :
    OdClosePolicyProp st cancelled res members := by
  constructor
  · simp [closeFull]
  · intro s hs
    cases cancelled with
    | true =>
      simp [replanGroupPlan] at hs
    | false =>
      rw [replanGroupPlan_false] at hs
      by_cases he : (res.filter (fun st => st.next_agent == 0)).isEmpty
      · rw [if_pos he] at hs
        have hse := List.mem_singleton.mp hs
        rw [hse]
        rfl
      · rw [if_neg he] at hs
        have h2 := (List.mem_filter.mp hs).2
        simpa using h2

/-- Witness for claim C5 at a concrete coordinate, search result and
member list. -/
theorem od_close_policy_witness :
    OdClosePolicyProp ⟨⟨[⟨⟨1, 1⟩, 0, AgentAction.unassigned⟩], 1⟩, 3⟩ false
      [⟨[⟨⟨1, 1⟩, 0, AgentAction.north⟩], 1⟩,
       ⟨[⟨⟨1, 2⟩, 0, AgentAction.unassigned⟩], 0⟩]
      [(⟨1, 1⟩, 0)] :=
  od_close_policy ⟨⟨[⟨⟨1, 1⟩, 0, AgentAction.unassigned⟩], 1⟩, 3⟩ false
    [⟨[⟨⟨1, 1⟩, 0, AgentAction.north⟩], 1⟩,
     ⟨[⟨⟨1, 2⟩, 0, AgentAction.unassigned⟩], 0⟩]
    [(⟨1, 1⟩, 0)]

/-- Claim C4 (amended): a non-cancelled replan always yields a
non-empty plan, falling back to the single state that keeps every
member at its starting position when the search yields no full state;
a cancelled replan yields the empty plan instead. -/
theorem od_replan_fallback (res : List AgentsState)
    (members : List (Pos × Nat)) : OdReplanFallbackProp res members := by
  unfold OdReplanFallbackProp
  constructor
  · rw [replanGroupPlan_false]
    by_cases he : (res.filter (fun st => st.next_agent == 0)).isEmpty
    · rw [if_pos he]
      exact List.cons_ne_nil _ _
    · rw [if_neg he]
      intro hnil
      rw [hnil] at he
      exact he rfl
  · intro he
    refine ⟨?_, ?_, rfl⟩
    · rw [replanGroupPlan_false, he]
      rfl
    · intro j hj
      show ((List.map (fun m => (⟨m.1, m.2, AgentAction.unassigned⟩ :
          AgentStateRec)) members).getD j defaultRec).position =
        (members.getD j (⟨0, 0⟩, 0)).1
      rw [getD_map (fun m => (⟨m.1, m.2, AgentAction.unassigned⟩ :
        AgentStateRec)) defaultRec (⟨0, 0⟩, 0) members j hj]

/-- Witness for the amended claim C4: a search result holding one
partial state only, which the stripping empties, so the fallback state
appears. -/
theorem od_replan_fallback_witness :
    OdReplanFallbackProp [⟨[⟨⟨0, 0⟩, 0, AgentAction.north⟩], 1⟩]
      [(⟨2, 2⟩, 5)] :=
  od_replan_fallback [⟨[⟨⟨0, 0⟩, 0, AgentAction.north⟩], 1⟩] [(⟨2, 2⟩, 5)]

/-- Counterexample to claim C4 as stated: a cancelled replan returns
the empty plan, not the single all-stay state the claim promises. -/
theorem od_replan_cancelled_cex :
    replanGroupPlan true [] (mkCurrentState [(⟨0, 0⟩, 0)]) = [] := by
  rfl

/-- Reflexivity of the conflating record walk. -/
theorem conflatedRecsEqual_refl : ∀ l : List AgentStateRec,
    conflatedRecsEqual l l = true := by
  intro l
  induction l with
  | nil => rfl
  | cons a r ih =>
    simp [conflatedRecsEqual, conflatedRecordEqual, ih]

/-- Claim C9: full state equality implies the conflating open-set
equality; the coarser predicate never separates states the strict one
identifies. -/
theorem od_conflated_coarser (s t : AgentsState)
    (h : odFullStateEqual s t = true) : conflatedStateEqual s t = true := by
  unfold odFullStateEqual at h
  simp only [Bool.and_eq_true, decide_eq_true_eq] at h
  obtain ⟨h1, h2⟩ := h
  unfold conflatedStateEqual
  rw [if_neg (by simp [h2]), if_neg (by simp [h1]), h2]
  exact conflatedRecsEqual_refl t.agents

/-- Witness for claim C9 at a concrete partially-assigned state. -/
theorem od_conflated_coarser_witness :
    odFullStateEqual
      ⟨[⟨⟨1, 1⟩, 0, AgentAction.east⟩, ⟨⟨2, 2⟩, 1, AgentAction.unassigned⟩], 1⟩
      ⟨[⟨⟨1, 1⟩, 0, AgentAction.east⟩, ⟨⟨2, 2⟩, 1, AgentAction.unassigned⟩], 1⟩
      = true ∧
    conflatedStateEqual
      ⟨[⟨⟨1, 1⟩, 0, AgentAction.east⟩, ⟨⟨2, 2⟩, 1, AgentAction.unassigned⟩], 1⟩
      ⟨[⟨⟨1, 1⟩, 0, AgentAction.east⟩, ⟨⟨2, 2⟩, 1, AgentAction.unassigned⟩], 1⟩
      = true :=
  ⟨by decide, od_conflated_coarser
    ⟨[⟨⟨1, 1⟩, 0, AgentAction.east⟩, ⟨⟨2, 2⟩, 1, AgentAction.unassigned⟩], 1⟩
    ⟨[⟨⟨1, 1⟩, 0, AgentAction.east⟩, ⟨⟨2, 2⟩, 1, AgentAction.unassigned⟩], 1⟩
    (by decide)⟩

/-- Witness for claim C6 at concrete tables with entries of several
owners. -/
theorem unreserve_owner_closure_witness :
    UnreserveProp 1 2 [(⟨0, 0, 3⟩, ⟨4, none⟩), (⟨0, 0, 4⟩, ⟨1, none⟩)]
      [(⟨1, 1, 0⟩, ⟨2, none⟩), (⟨1, 2, 0⟩, ⟨3, some ⟨1, 1⟩⟩)]
      [(⟨0, 1⟩, ⟨5, 9⟩), (⟨0, 2⟩, ⟨2, 4⟩)] :=
  unreserve_owner_closure 1 2
    [(⟨0, 0, 3⟩, ⟨4, none⟩), (⟨0, 0, 4⟩, ⟨1, none⟩)]
    [(⟨1, 1, 0⟩, ⟨2, none⟩), (⟨1, 2, 0⟩, ⟨3, some ⟨1, 1⟩⟩)]
    [(⟨0, 1⟩, ⟨5, 9⟩), (⟨0, 2⟩, ⟨2, 4⟩)]

/-- Setting an index leaves lookups at other indices unchanged. -/
theorem getD_set_ne {α : Type} (d : α) :
    ∀ (l : List α) (i j : Nat) (v : α), i ≠ j →
      (l.set i v).getD j d = l.getD j d := by
  intro l
  induction l with
  | nil => intro i j v _; rfl
  | cons a r ih =>
    intro i j v hij
    cases i with
    | zero =>
      cases j with
      | zero => exact absurd rfl hij
      | succ j2 => simp [List.getD_cons_succ]
    | succ i2 =>
      cases j with
      | zero => simp [List.getD_cons_zero]
      | succ j2 =>
        simp only [List.set_cons_succ, List.getD_cons_succ]
        exact ih i2 j2 v (fun hh => hij (congrArg Nat.succ hh))

/-- Setting an in-range index makes the lookup there yield the new
value. -/
theorem getD_set_self {α : Type} (d : α) :
    ∀ (l : List α) (i : Nat) (v : α), i < l.length →
      (l.set i v).getD i d = v := by
  intro l
  induction l with
  | nil => intro i v h; simp at h
  | cons a r ih =>
    intro i v h
    cases i with
    | zero => simp [List.getD_cons_zero]
    | succ i2 =>
      simp only [List.set_cons_succ, List.getD_cons_succ]
      exact ih i2 v (by simpa using h)

/-- Decomposition of a list around an in-range index. -/
theorem take_getD_drop {α : Type} (d : α) :
    ∀ (l : List α) (i : Nat), i < l.length →
      l = l.take i ++ l.getD i d :: l.drop (i + 1) := by
  intro l
  induction l with
  | nil => intro i h; simp at h
  | cons a r ih =>
    intro i h
    cases i with
    | zero => simp [List.getD_cons_zero]
    | succ i2 =>
      simp only [List.take_succ_cons, List.getD_cons_succ,
        List.drop_succ_cons, List.cons_append, List.cons.injEq, true_and]
      exact ih i2 (by simpa using h)

/-- Members of a prefix are lookups at indices below the prefix
length. -/
theorem mem_take_getD {α : Type} (d : α) :
    ∀ (l : List α) (i : Nat) (r : α), r ∈ l.take i →
      ∃ j, j < i ∧ j < l.length ∧ l.getD j d = r := by
  intro l
  induction l with
  | nil => intro i r hr; simp at hr
  | cons a r2 ih =>
    intro i r hr
    cases i with
    | zero => simp at hr
    | succ i2 =>
      rw [List.take_succ_cons] at hr
      rcases List.mem_cons.mp hr with hr | hr
      · exact ⟨0, Nat.succ_pos i2, by simp, by simp [List.getD_cons_zero, hr]⟩
      · obtain ⟨j, hj1, hj2, hj3⟩ := ih i2 r hr
        exact ⟨j + 1, by omega, by simp; omega,
          by simpa [List.getD_cons_succ] using hj3⟩

/-- Existence of a satisfying element in a prefix, phrased through
indices. -/
theorem any_take_iff {α : Type} (d : α) (p : α → Bool) :
    ∀ (l : List α) (i : Nat),
      (l.take i).any p = true ↔
        ∃ j, j < i ∧ j < l.length ∧ p (l.getD j d) = true := by
  intro l
  induction l with
  | nil =>
    intro i
    constructor
    · intro h; simp at h
    · rintro ⟨j, _, hj2, _⟩; simp at hj2
  | cons a r ih =>
    intro i
    cases i with
    | zero =>
      constructor
      · intro h; simp at h
      · rintro ⟨j, hj1, _, _⟩; omega
    | succ i2 =>
      simp only [List.take_succ_cons, List.any_cons, Bool.or_eq_true]
      constructor
      · rintro (hp | hany)
        · exact ⟨0, Nat.succ_pos i2, by simp,
            by simpa [List.getD_cons_zero] using hp⟩
        · obtain ⟨j, hj1, hj2, hj3⟩ := (ih i2).mp hany
          exact ⟨j + 1, by omega, by simp; omega,
            by simpa [List.getD_cons_succ] using hj3⟩
      · rintro ⟨j, hj1, hj2, hj3⟩
        cases j with
        | zero => exact Or.inl (by simpa [List.getD_cons_zero] using hj3)
        | succ j2 =>
          refine Or.inr ((ih i2).mpr ⟨j2, by omega, ?_,
            by simpa [List.getD_cons_succ] using hj3⟩)
          simp at hj2
          omega

/-- Evaluation of the blocking scan on a vector whose assigned prefix
is followed by an unassigned record: the scan is an any over the
prefix. -/
theorem moveBlocked_append (iPos dest : Pos) :
    ∀ (front rest : List AgentStateRec),
      (∀ r ∈ front, r.action ≠ AgentAction.unassigned) →
      (∀ o, rest.head? = some o → o.action = AgentAction.unassigned) →
      moveBlocked iPos dest (front ++ rest) =
        front.any (recBlocks iPos dest) := by
  intro front
  induction front with
  | nil =>
    intro rest _ hrest
    cases rest with
    | nil => rfl
    | cons o r2 =>
      have ho := hrest o (by rw [List.head?_cons])
      simp [moveBlocked, ho]
  | cons f fs ih =>
    intro rest hfront hrest
    have hf : f.action ≠ AgentAction.unassigned :=
      hfront f (List.mem_cons_self f fs)
    simp only [List.cons_append, moveBlocked, if_neg hf, List.any_cons,
      List.append_eq]
    rw [ih rest (fun r hr => hfront r (List.mem_cons_of_mem f hr)) hrest]

/-- Evaluation of the vacate scan on a vector whose assigned prefix is
followed by an unassigned record. -/
theorem needsVacate_append (a : AgentStateRec) :
    ∀ (front rest : List AgentStateRec),
      (∀ r ∈ front, r.action ≠ AgentAction.unassigned) →
      (∀ o, rest.head? = some o → o.action = AgentAction.unassigned) →
      needsVacate a (front ++ rest) =
        front.any (fun o =>
          decide (o.position = a.position) && decide (o.id ≠ a.id)) := by
  intro front
  induction front with
  | nil =>
    intro rest _ hrest
    cases rest with
    | nil => rfl
    | cons o r2 =>
      have ho := hrest o (by rw [List.head?_cons])
      simp [needsVacate, ho]
  | cons f fs ih =>
    intro rest hfront hrest
    have hf : f.action ≠ AgentAction.unassigned :=
      hfront f (List.mem_cons_self f fs)
    simp only [List.cons_append, needsVacate, if_neg hf, List.any_cons,
      List.append_eq]
    rw [ih rest (fun r hr => hfront r (List.mem_cons_of_mem f hr)) hrest]

/-- Equivalence of the source blocking test with the conflict relation
of claim C3. -/
theorem recBlocks_iff (iPos dest : Pos) (o : AgentStateRec) :
    recBlocks iPos dest o = true ↔ ClaimBlockProp iPos dest o := by
  unfold recBlocks ClaimBlockProp odPreMove
  by_cases hstay : o.action = AgentAction.stay
  · rw [if_pos hstay, if_pos hstay]
    simp only [decide_eq_true_eq]
    constructor
    · exact Or.inl
    · rintro (h | ⟨h, _⟩) <;> exact h
  · rw [if_neg hstay, if_neg hstay]
    simp

/-- Unit steps move. -/
theorem translate_ne_self (p : Pos) (d : Direction) : translate p d ≠ p := by
  cases d <;> intro h
  · have hy := congrArg Pos.y h
    simp only [translate] at hy
    omega
  · have hx := congrArg Pos.x h
    simp only [translate] at hx
    omega
  · have hy := congrArg Pos.y h
    simp only [translate] at hy
    omega
  · have hx := congrArg Pos.x h
    simp only [translate] at hx
    omega

/-- Length preservation of the record assignment. -/
theorem assignRec_length (s : AgentsState) (act : AgentAction) (dest : Pos) :
    (assignRec s act dest).length = s.agents.length :=
  List.length_set s.agents s.next_agent _

/-- Advancement of next_agent by one modulo the agent count. -/
theorem mkSuccessor_next_agent (s : AgentsState) (act : AgentAction)
    (dest : Pos) :
    (mkSuccessor s act dest).next_agent =
      (s.next_agent + 1) % s.agents.length := by
  unfold mkSuccessor
  by_cases h0 : (s.next_agent + 1) % (assignRec s act dest).length = 0
  · rw [if_pos h0]
    rw [assignRec_length] at h0
    exact h0.symm
  · rw [if_neg h0]
    show (s.next_agent + 1) % (assignRec s act dest).length = _
    rw [assignRec_length]

/-- Preservation of position and identifier at every other index. -/
theorem mkSuccessor_getD_other (s : AgentsState) (act : AgentAction)
    (dest : Pos) (j : Nat) (hj : j < s.agents.length)
    (hne : j ≠ s.next_agent) :
    ((mkSuccessor s act dest).agents.getD j defaultRec).position =
      (s.agents.getD j defaultRec).position ∧
    ((mkSuccessor s act dest).agents.getD j defaultRec).id =
      (s.agents.getD j defaultRec).id := by
  have hset : (assignRec s act dest).getD j defaultRec =
      s.agents.getD j defaultRec :=
    getD_set_ne defaultRec s.agents s.next_agent j _
      (fun hh => hne hh.symm)
  unfold mkSuccessor
  by_cases h0 : (s.next_agent + 1) % (assignRec s act dest).length = 0
  · rw [if_pos h0]
    show (((assignRec s act dest).map makeFullRec).getD j
        defaultRec).position = _ ∧
      (((assignRec s act dest).map makeFullRec).getD j defaultRec).id = _
    rw [getD_map makeFullRec defaultRec defaultRec _ j
      (by rw [assignRec_length]; exact hj), hset]
    exact ⟨rfl, rfl⟩
  · rw [if_neg h0]
    show ((assignRec s act dest).getD j defaultRec).position = _ ∧
      ((assignRec s act dest).getD j defaultRec).id = _
    rw [hset]
    exact ⟨rfl, rfl⟩

/-- Preservation of the pending action at every other index while the
round is not completed. -/
theorem mkSuccessor_action_keep (s : AgentsState) (act : AgentAction)
    (dest : Pos) (j : Nat) (hj : j < s.agents.length)
    (hne : j ≠ s.next_agent) (hlt : s.next_agent + 1 < s.agents.length) :
    ((mkSuccessor s act dest).agents.getD j defaultRec).action =
      (s.agents.getD j defaultRec).action := by
  have hset : (assignRec s act dest).getD j defaultRec =
      s.agents.getD j defaultRec :=
    getD_set_ne defaultRec s.agents s.next_agent j _
      (fun hh => hne hh.symm)
  have h0 : ¬ (s.next_agent + 1) % (assignRec s act dest).length = 0 := by
    rw [assignRec_length, Nat.mod_eq_of_lt hlt]
    exact Nat.succ_ne_zero s.next_agent
  unfold mkSuccessor
  rw [if_neg h0]
  show ((assignRec s act dest).getD j defaultRec).action = _
  rw [hset]

/-- Reset of every pending action when the assignment completes the
round. -/
theorem mkSuccessor_action_wrap (s : AgentsState) (act : AgentAction)
    (dest : Pos) (hlen : s.next_agent + 1 = s.agents.length) :
    ∀ j < s.agents.length,
      ((mkSuccessor s act dest).agents.getD j defaultRec).action =
        AgentAction.unassigned := by
  intro j hj
  have h0 : (s.next_agent + 1) % (assignRec s act dest).length = 0 := by
    rw [assignRec_length, hlen, Nat.mod_self]
  unfold mkSuccessor
  rw [if_pos h0]
  show (((assignRec s act dest).map makeFullRec).getD j
      defaultRec).action = _
  rw [getD_map makeFullRec defaultRec defaultRec _ j
    (by rw [assignRec_length]; exact hj)]
  rfl

/-- Destination stored at the next agent's own index. -/
theorem mkSuccessor_position_self (s : AgentsState) (act : AgentAction)
    (dest : Pos) (hn : s.next_agent < s.agents.length) :
    ((mkSuccessor s act dest).agents.getD s.next_agent
      defaultRec).position = dest := by
  have hset : (assignRec s act dest).getD s.next_agent defaultRec =
      { curAgent s with action := act, position := dest } :=
    getD_set_self defaultRec s.agents s.next_agent _ hn
  unfold mkSuccessor
  by_cases h0 : (s.next_agent + 1) % (assignRec s act dest).length = 0
  · rw [if_pos h0]
    show (((assignRec s act dest).map makeFullRec).getD s.next_agent
        defaultRec).position = dest
    rw [getD_map makeFullRec defaultRec defaultRec _ s.next_agent
      (by rw [assignRec_length]; exact hn), hset]
    rfl
  · rw [if_neg h0]
    show ((assignRec s act dest).getD s.next_agent defaultRec).position =
      dest
    rw [hset]

/-- Claim C3 (amended): characterization of the OD successor function
on a well-formed state (agents before next_agent assigned, the next
agent unassigned).  Every successor is an admissible cardinal move or
the stay successor; stay appears exactly when no already-assigned other
agent occupies the next agent's cell; next_agent advances by one modulo
the agent count; the other agents keep position and identifier, and
keep their pending action too unless the assignment completes the
round, which resets every pending action to unassigned. -/
theorem od_successors_characterization (w : World) (s : AgentsState)
    (hn : s.next_agent < s.agents.length)
    (hpre : ∀ j < s.next_agent,
      (s.agents.getD j defaultRec).action ≠ AgentAction.unassigned)
    (hcur : (curAgent s).action = AgentAction.unassigned) :
    OdSuccessorProp w s := by
  have hdecomp : s.agents =
      List.take s.next_agent s.agents ++
        curAgent s :: List.drop (s.next_agent + 1) s.agents :=
    take_getD_drop defaultRec s.agents s.next_agent hn
  have hfront : ∀ r ∈ s.agents.take s.next_agent,
      r.action ≠ AgentAction.unassigned := by
    intro r hr
    obtain ⟨j, hj1, hj2, hj3⟩ :=
      mem_take_getD defaultRec s.agents s.next_agent r hr
    rw [← hj3]
    exact hpre j hj1
  have hrest : ∀ o : AgentStateRec,
      (curAgent s :: s.agents.drop (s.next_agent + 1)).head? = some o →
        o.action = AgentAction.unassigned := by
    intro o ho
    rw [List.head?_cons] at ho
    injection ho with ho2
    rw [← ho2]
    exact hcur
  have hmbIff : ∀ dest : Pos,
      moveBlocked (curAgent s).position dest s.agents = false ↔
        ∀ j < s.next_agent,
          ¬ ClaimBlockProp (curAgent s).position dest
              (s.agents.getD j defaultRec) := by
    intro dest
    have h2 := moveBlocked_append (curAgent s).position dest
      (s.agents.take s.next_agent)
      (curAgent s :: s.agents.drop (s.next_agent + 1)) hfront hrest
    rw [← hdecomp] at h2
    rw [h2]
    constructor
    · intro hfalse j hj hcb
      have htrue : (s.agents.take s.next_agent).any
          (recBlocks (curAgent s).position dest) = true :=
        (any_take_iff defaultRec _ s.agents s.next_agent).mpr
          ⟨j, hj, by omega, (recBlocks_iff _ _ _).mpr hcb⟩
      rw [hfalse] at htrue
      exact Bool.false_ne_true htrue
    · intro hall
      cases hb : (s.agents.take s.next_agent).any
          (recBlocks (curAgent s).position dest) with
      | false => rfl
      | true =>
        obtain ⟨j, hj1, hj2, hj3⟩ :=
          (any_take_iff defaultRec _ s.agents s.next_agent).mp hb
        exact absurd ((recBlocks_iff _ _ _).mp hj3) (hall j hj1)
  have hvacIff : needsVacate (curAgent s) s.agents = true ↔
      OdVacateProp s := by
    have h2 := needsVacate_append (curAgent s)
      (s.agents.take s.next_agent)
      (curAgent s :: s.agents.drop (s.next_agent + 1)) hfront hrest
    rw [← hdecomp] at h2
    rw [h2, any_take_iff defaultRec _ s.agents s.next_agent]
    unfold OdVacateProp
    constructor
    · rintro ⟨j, hj1, hj2, hj3⟩
      simp only [Bool.and_eq_true, decide_eq_true_eq] at hj3
      exact ⟨j, hj1, hj3.1, hj3.2⟩
    · rintro ⟨j, hj1, hj2, hj3⟩
      refine ⟨j, hj1, by omega, ?_⟩
      simp only [Bool.and_eq_true, decide_eq_true_eq]
      exact ⟨hj2, hj3⟩
  refine ⟨?_, ?_, ?_⟩
  · intro t ht
    rcases List.mem_append.mp ht with hmem | hmem
    · obtain ⟨d, hd1, hd2⟩ := List.mem_filterMap.mp hmem
      by_cases hc : inBounds (translate (curAgent s).position d) w.map =
            true ∧
          w.get (translate (curAgent s).position d) ≠ Tile.wall ∧
          moveBlocked (curAgent s).position
            (translate (curAgent s).position d) s.agents = false
      · rw [if_pos hc] at hd2
        injection hd2 with hd3
        exact Or.inl ⟨d, hc.1, hc.2.1, (hmbIff _).mp hc.2.2, hd3.symm⟩
      · rw [if_neg hc] at hd2
        exact Option.noConfusion hd2
    · by_cases hv : needsVacate (curAgent s) s.agents = true
      · rw [if_pos hv] at hmem
        exact absurd hmem (List.not_mem_nil t)
      · rw [if_neg hv] at hmem
        exact Or.inr ⟨List.mem_singleton.mp hmem,
          fun hvp => hv (hvacIff.mpr hvp)⟩
  · constructor
    · intro hmem
      rcases List.mem_append.mp hmem with hmem | hmem
      · exfalso
        obtain ⟨d, hd1, hd2⟩ := List.mem_filterMap.mp hmem
        by_cases hc : inBounds (translate (curAgent s).position d) w.map =
              true ∧
            w.get (translate (curAgent s).position d) ≠ Tile.wall ∧
            moveBlocked (curAgent s).position
              (translate (curAgent s).position d) s.agents = false
        · rw [if_pos hc] at hd2
          injection hd2 with hd3
          have hp1 := mkSuccessor_position_self s (directionToAction d)
            (translate (curAgent s).position d) hn
          have hp2 := mkSuccessor_position_self s AgentAction.stay
            (curAgent s).position hn
          rw [hd3, hp2] at hp1
          exact translate_ne_self (curAgent s).position d hp1.symm
        · rw [if_neg hc] at hd2
          exact Option.noConfusion hd2
      · by_cases hv : needsVacate (curAgent s) s.agents = true
        · rw [if_pos hv] at hmem
          exact absurd hmem (List.not_mem_nil _)
        · exact fun hvp => hv (hvacIff.mpr hvp)
    · intro hnv
      apply List.mem_append_right
      rw [if_neg (fun hv => hnv (hvacIff.mp hv))]
      exact List.mem_singleton.mpr rfl
  · intro act dest
    refine ⟨mkSuccessor_next_agent s act dest, fun j hj hne => ?_,
      fun hlen j hj => mkSuccessor_action_wrap s act dest hlen j hj⟩
    obtain ⟨hpos, hid⟩ := mkSuccessor_getD_other s act dest j hj hne
    exact ⟨hpos, hid,
      fun hlt => mkSuccessor_action_keep s act dest j hj hne hlt⟩

/-- Witness for the amended claim C3 at a concrete two-agent state with
the first agent undecided. -/
theorem od_successors_characterization_witness :
    (⟨[⟨⟨1, 1⟩, 0, AgentAction.unassigned⟩,
       ⟨⟨3, 3⟩, 1, AgentAction.unassigned⟩], 0⟩ : AgentsState).next_agent <
      (⟨[⟨⟨1, 1⟩, 0, AgentAction.unassigned⟩,
         ⟨⟨3, 3⟩, 1, AgentAction.unassigned⟩], 0⟩ :
           AgentsState).agents.length ∧
    (curAgent ⟨[⟨⟨1, 1⟩, 0, AgentAction.unassigned⟩,
       ⟨⟨3, 3⟩, 1, AgentAction.unassigned⟩], 0⟩).action =
      AgentAction.unassigned ∧
    OdSuccessorProp ⟨⟨8, 8, fun _ _ => Tile.free⟩, [], [], 0⟩
      ⟨[⟨⟨1, 1⟩, 0, AgentAction.unassigned⟩,
        ⟨⟨3, 3⟩, 1, AgentAction.unassigned⟩], 0⟩ :=
  ⟨by decide, by decide,
    od_successors_characterization ⟨⟨8, 8, fun _ _ => Tile.free⟩, [], [], 0⟩
      ⟨[⟨⟨1, 1⟩, 0, AgentAction.unassigned⟩,
        ⟨⟨3, 3⟩, 1, AgentAction.unassigned⟩], 0⟩
      (by decide) (by decide) (by decide)⟩

/-- Counterexample to claim C3 as stated: expanding the last undecided
agent of a two-agent state wraps next_agent to zero and make_full
resets every pending action, so the already-assigned first agent's
record changes (its action falls back from stay to unassigned), against
the claim that all other agents' records are unchanged. -/
theorem od_successor_wrap_cex :
    mkSuccessor ⟨[⟨⟨0, 0⟩, 0, AgentAction.stay⟩,
        ⟨⟨5, 5⟩, 1, AgentAction.unassigned⟩], 1⟩ AgentAction.stay ⟨5, 5⟩ ∈
      stateSuccessors ⟨⟨8, 8, fun _ _ => Tile.free⟩, [], [], 0⟩
        ⟨[⟨⟨0, 0⟩, 0, AgentAction.stay⟩,
          ⟨⟨5, 5⟩, 1, AgentAction.unassigned⟩], 1⟩ ∧
    ((mkSuccessor ⟨[⟨⟨0, 0⟩, 0, AgentAction.stay⟩,
        ⟨⟨5, 5⟩, 1, AgentAction.unassigned⟩], 1⟩ AgentAction.stay
        ⟨5, 5⟩).agents.getD 0 defaultRec).action ≠
      ((⟨[⟨⟨0, 0⟩, 0, AgentAction.stay⟩,
         ⟨⟨5, 5⟩, 1, AgentAction.unassigned⟩], 1⟩ :
           AgentsState).agents.getD 0 defaultRec).action := by
  decide

/-- Counter preservation by the pop tail of next_step. -/
theorem nextStepPop_times (p : SepState × List Pos) (aid : Nat) :
    ((nextStepPop p aid).2).times_without_path =
      p.1.times_without_path := by
  unfold nextStepPop
  by_cases h : p.2.length < 2
  · rw [if_pos h]
  · rw [if_neg h]

/-- Counter preservation by next_step: neither recalculation nor the
pop touch the Path not found counter. -/
theorem nextStep_times (fp : FindPathFn) (from0 : Pos) (w : World)
    (old : Option (List Pos)) (aid : Nat) (st : SepState) :
    ((nextStep fp from0 w old aid st).2).times_without_path =
      st.times_without_path := by
  unfold nextStep
  by_cases h : ((alookup st.paths aid).getD []).length < 2
  · rw [if_pos h, nextStepPop_times]
  · rw [if_neg h, nextStepPop_times]

/-- Claim C8 (amended): an initial next_step failure for an agent away
from its goal bumps the Path not found counter by exactly one, emits no
action and leaves the working world untouched; a failure of the retry
after an invalid step is counted by Path invalid instead. -/
theorem sep_no_path_increments (fp : FindPathFn) (pos target : Pos)
    (aid : Nat) (w : World) (st : SepState) (acts : List MoveAction)
    (h1 : (nextStep fp pos w none aid st).1 = none) (h2 : pos ≠ target) :
    SepNoPathProp fp pos target aid w st acts := by
  have htimes := nextStep_times fp pos w none aid st
  unfold SepNoPathProp processAgent
  rcases hns : nextStep fp pos w none aid st with ⟨mn, st1⟩
  rw [hns] at h1 htimes
  simp only at h1 htimes
  subst h1
  simp only [if_pos h2]
  simp [htimes]

/-- Witness for the amended claim C8: an oracle that never finds a
path, an empty stored-path table and an agent away from its goal. -/
theorem sep_no_path_increments_witness :
    (nextStep (fun _ _ _ => []) ⟨0, 0⟩
        ⟨⟨3, 1, fun _ _ => Tile.free⟩, [], [], 0⟩ none 0
        ⟨[], 0, 0, 0⟩).1 = none ∧
    (⟨0, 0⟩ : Pos) ≠ ⟨2, 0⟩ ∧
    SepNoPathProp (fun _ _ _ => []) ⟨0, 0⟩ ⟨2, 0⟩ 0
      ⟨⟨3, 1, fun _ _ => Tile.free⟩, [], [], 0⟩ ⟨[], 0, 0, 0⟩ [] :=
  ⟨by decide, by decide,
    sep_no_path_increments (fun _ _ _ => []) ⟨0, 0⟩ ⟨2, 0⟩ 0
      ⟨⟨3, 1, fun _ _ => Tile.free⟩, [], [], 0⟩ ⟨[], 0, 0, 0⟩ []
      (by decide) (by decide)⟩

/-- Counterexample to claim C8 as stated: on a 3 by 1 corridor with an
obstacle on the middle cell, the first next_step returns a step onto
the obstacle, the step is invalid, and the retry finds no path, so the
agent away from its goal ends the tick with no next step; yet the Path
not found counter stays at zero (Path invalid counts the failure and
the oracle ran twice), against the claim that every no-step outcome
for an agent away from its goal increments Path not found by one. -/
theorem sep_retry_no_increment_cex :
    (⟨0, 0⟩ : Pos) ≠ ⟨2, 0⟩ ∧
    (processAgent
        (fun _ _ old => match old with
          | none => [⟨1, 0⟩, ⟨0, 0⟩]
          | some _ => [])
        ⟨0, 0⟩ ⟨2, 0⟩ 0
        ⟨⟨3, 1, fun _ _ => Tile.free⟩, [(⟨0, 0⟩, ⟨⟨2, 0⟩, 0⟩)],
          [⟨1, 0⟩], 0⟩
        ⟨[], 0, 0, 0⟩ []).1.times_without_path = 0 ∧
    (processAgent
        (fun _ _ old => match old with
          | none => [⟨1, 0⟩, ⟨0, 0⟩]
          | some _ => [])
        ⟨0, 0⟩ ⟨2, 0⟩ 0
        ⟨⟨3, 1, fun _ _ => Tile.free⟩, [(⟨0, 0⟩, ⟨⟨2, 0⟩, 0⟩)],
          [⟨1, 0⟩], 0⟩
        ⟨[], 0, 0, 0⟩ []).1.path_invalid = 1 ∧
    (processAgent
        (fun _ _ old => match old with
          | none => [⟨1, 0⟩, ⟨0, 0⟩]
          | some _ => [])
        ⟨0, 0⟩ ⟨2, 0⟩ 0
        ⟨⟨3, 1, fun _ _ => Tile.free⟩, [(⟨0, 0⟩, ⟨⟨2, 0⟩, 0⟩)],
          [⟨1, 0⟩], 0⟩
        ⟨[], 0, 0, 0⟩ []).1.recalculations = 2 ∧
    (processAgent
        (fun _ _ old => match old with
          | none => [⟨1, 0⟩, ⟨0, 0⟩]
          | some _ => [])
        ⟨0, 0⟩ ⟨2, 0⟩ 0
        ⟨⟨3, 1, fun _ _ => Tile.free⟩, [(⟨0, 0⟩, ⟨⟨2, 0⟩, 0⟩)],
          [⟨1, 0⟩], 0⟩
        ⟨[], 0, 0, 0⟩ []).2.1 = [] := by
  decide

end MAPF
